import Mathlib

/-!
Shallow embedding of the transcript acquisition engine of
`netlify/functions/youtubeTranscript.ts`.

The TypeScript source is a Netlify handler that, given a `videoId`
query parameter, attempts a direct caption fetch, then falls back to
listing available caption tracks, scoring them, and fetching the best
candidate.  Network effects are modelled by an oracle
`net : Request → FetchResult`; the handler additionally returns the
list of requests it issued, in order, so that "no outbound request was
made" is expressible.
-/

/-- One caption track as parsed from the listing document
(TS type `CaptionTrack`).  `kind` and `vssId` are optional attributes;
`name` defaults to the empty string (`raw['name'] || ''`). -/
structure CaptionTrack where
  langCode : String
  name : String
  kind : Option String
  vssId : Option String
  deriving DecidableEq, Repr

/-- `const preferredEnglishLangs = ['en', 'en-US', 'en-GB']`. -/
def preferredEnglishLangs : List String := ["en", "en-US", "en-GB"]

/-- The whitespace class used both by the regex `\s` and by
`String.prototype.trim` (restricted to the ASCII whitespace characters,
which are the only ones the engine's inputs contain). -/
def isJsWhitespace (c : Char) : Bool :=
  c = ' ' || c = '\t' || c = '\n' || c = '\r' || c = '\x0b' || c = '\x0c'

/-- `String.prototype.trim` on the character list: drop whitespace from
both ends. -/
def jsTrimList (s : List Char) : List Char :=
  ((s.dropWhile isJsWhitespace).reverse.dropWhile isJsWhitespace).reverse

/-- `String.prototype.trim`. -/
def jsTrim (s : String) : String := ⟨jsTrimList s.data⟩

/-- Character class of the attribute-name group `[a-zA-Z0-9_-]`. -/
def isNameChar (c : Char) : Bool :=
  c.isAlpha || c.isDigit || c = '_' || c = '-'

/-- Strip an expected literal prefix; `none` when `s` does not start
with `p`.  Used to match the literal `<track` of the track regex. -/
def stripChars : List Char → List Char → Option (List Char)
  | [], s => some s
  | _ :: _, [] => none
  | p :: ps, c :: cs => if c = p then stripChars ps cs else none

/-- Scan for the lazy group terminator of `<track\s+([^>]+?)\/>`:
starting with a non-empty accumulated group `acc` (reversed), consume
characters until the literal `/>`; any other `>` aborts the match
(the group class `[^>]` cannot cross it, and no backtracking can
recover).  Returns the group and the remainder after the match. -/
def findTerm (acc : List Char) : List Char → Option (List Char × List Char)
  | [] => none
  | c :: rest =>
    if c = '>' then none
    else if c = '/' ∧ rest.head? = some '>' then some (acc.reverse, rest.tail)
    else findTerm (c :: acc) rest

/-- Match the regex `<track\s+([^>]+?)\/>` anchored at the head of `s`:
literal `<track`, at least one whitespace character (greedy `\s+`),
then the lazy group up to the first `/>`.  When the remainder after the
whitespace run begins directly with `/>`, the greedy `\s+` backtracks
one character into the group (possible only when the run has length at
least 2), which is the single rescue case of the backtracking search.
Returns `(group, remainder after the match)`. -/
def matchTrackAt (s : List Char) : Option (List Char × List Char) :=
  match stripChars ['<', 't', 'r', 'a', 'c', 'k'] s with
  | none => none
  | some afterTag =>
    if (afterTag.takeWhile isJsWhitespace).length = 0 then none
    else
      match afterTag.dropWhile isJsWhitespace with
      | [] => none
      | c :: rest =>
        match findTerm [c] rest with
        | some r => some r
        | none =>
          match afterTag.takeWhile isJsWhitespace, c, rest with
          | _ :: _ :: _, '/', '>' :: rest2 =>
            some ([(afterTag.takeWhile isJsWhitespace).getLastD ' '], rest2)
          | _, _, _ => none

/-- The global `trackRegex.exec` loop: find successive non-overlapping
matches of the track regex, scanning left to right and resuming after
each match (`lastIndex` semantics).  Structural recursion on a fuel
argument so that concrete documents evaluate by kernel reduction; the
fuel `s.length` is always sufficient because every step consumes at
least one character (`matchTrackAt_length_lt` below). -/
def trackMatchesAux : Nat → List Char → List (List Char)
  | 0, _ => []
  | _, [] => []
  | fuel + 1, c :: rest =>
    match matchTrackAt (c :: rest) with
    | some (g, after) => g :: trackMatchesAux fuel after
    | none => trackMatchesAux fuel rest

/-- All group-1 captures of `trackRegex` over the document, in source
order. -/
def trackMatches (s : List Char) : List (List Char) := trackMatchesAux s.length s

/-- The global `attrRegex.exec` loop over one track's attribute string:
successive matches of `([a-zA-Z0-9_-]+)="([^"]*)"`.  A match anchored
at a position needs a maximal non-empty name run followed directly by
`="`, then the value up to the next `"`, which must exist; otherwise
the scan advances one character.  Fuel-structural like the track
scanner. -/
def parseAttrsAux : Nat → List Char → List (String × String)
  | 0, _ => []
  | _, [] => []
  | fuel + 1, c :: rest =>
    if ((c :: rest).takeWhile isNameChar).length = 0 then parseAttrsAux fuel rest
    else
      match (c :: rest).dropWhile isNameChar with
      | '=' :: '"' :: r2 =>
        match r2.dropWhile (fun ch => ch ≠ '"') with
        | '"' :: r4 =>
          (⟨(c :: rest).takeWhile isNameChar⟩, ⟨r2.takeWhile (fun ch => ch ≠ '"')⟩)
            :: parseAttrsAux fuel r4
        | _ => parseAttrsAux fuel rest
      | _ => parseAttrsAux fuel rest

/-- All attribute key/value pairs of one track element, in match
order. -/
def parseAttrs (s : List Char) : List (String × String) := parseAttrsAux s.length s

/-- `raw[key] = value` inside the attribute loop overwrites earlier
assignments, so the final record maps each key to its *last* occurrence:
`lookupLast` prefers the match found later in the list. -/
def lookupLast (key : String) : List (String × String) → Option String
  | [] => none
  | (k, v) :: rest =>
    match lookupLast key rest with
    | some r => some r
    | none => if k = key then some v else none

/-- The per-match body of the `while` loop of `parseCaptionTracks`:
build the attribute record, read `lang_code`, and drop the track when
it is missing or empty (`if (!langCode) continue` — the empty string is
falsy). -/
def mkTrack (attrs : List Char) : Option CaptionTrack :=
  let raw := parseAttrs attrs
  match lookupLast "lang_code" raw with
  | none => none
  | some lc =>
    if lc = "" then none
    else some
      { langCode := lc
        name := (lookupLast "name" raw).getD ""
        kind := lookupLast "kind" raw
        vssId := lookupLast "vss_id" raw }

/-- The accumulation of `tracks.push`/`continue` over the match list:
kept tracks in source order, lang-less tracks skipped. -/
def parseLoop : List (List Char) → List CaptionTrack
  | [] => []
  | g :: gs =>
    match mkTrack g with
    | none => parseLoop gs
    | some t => t :: parseLoop gs

/-- `function parseCaptionTracks(xml: string): CaptionTrack[]`. -/
def parseCaptionTracks (xml : String) : List CaptionTrack :=
  parseLoop (trackMatches xml.data)

/-- `lang.startsWith('en')`. -/
def strStartsWith (s pre : String) : Bool := pre.data.isPrefixOf s.data

/-- `function scoreTrack(track: CaptionTrack): number`.  The source
computes `const kind = track.kind || ''`, so an absent and an empty
`kind` coincide; `isEnglishVariant` carries the explicit
`!isPreferred` conjunct of the source even though the `else if` already
implies it. -/
def scoreTrack (track : CaptionTrack) : Nat :=
  let lang := track.langCode
  let kind := track.kind.getD ""
  let isPreferred := preferredEnglishLangs.contains lang
  let isEnglishVariant := !isPreferred && strStartsWith lang "en"
  (if isPreferred then 200 else if isEnglishVariant then 150 else 50)
    + (if kind = "" then 20 else if kind = "asr" then 10 else 0)

/-- A `{ track, score }` pair produced by the `.map` before sorting. -/
structure Scored where
  track : CaptionTrack
  score : Nat
  deriving DecidableEq, Repr

/-- The `.map((track) => ({ track, score: scoreTrack(track) }))` step
of `pickBestTrack`. -/
def mkScored (t : CaptionTrack) : Scored :=
  { track := t, score := scoreTrack t }

/-- Stable insertion step for the descending sort: `x` (earlier in the
original array) is placed before the first element whose score does not
exceed `x`'s, exactly the order produced by the stable
`Array.prototype.sort` with comparator `(a, b) => b.score - a.score`. -/
def insertDesc (x : Scored) : List Scored → List Scored
  | [] => [x]
  | y :: ys => if y.score ≤ x.score then x :: y :: ys else y :: insertDesc x ys

/-- Stable descending sort by score.  ECMA-262 requires
`Array.prototype.sort` to be stable, and a stable sort under the total
preorder induced by the comparator has a unique result, so this stable
insertion sort computes exactly what the source's `.sort` does. -/
def sortDesc : List Scored → List Scored
  | [] => []
  | x :: xs => insertDesc x (sortDesc xs)

/-- `function pickBestTrack(tracks: CaptionTrack[]): CaptionTrack | null`. -/
def pickBestTrack (tracks : List CaptionTrack) : Option CaptionTrack :=
  if tracks.length = 0 then none
  else
    let scored := tracks.map mkScored
    ((sortDesc scored).head?).map Scored.track

/-- Specification-side characterization of the selection: the first
element of the list attaining the maximal score.  `pickBestTrack` on a
non-empty list is proved below to return exactly this element. -/
def firstBest (x : CaptionTrack) : List CaptionTrack → CaptionTrack
  | [] => x
  | y :: ys =>
    let m := firstBest y ys
    if scoreTrack m ≤ scoreTrack x then x else m

/-- The three outbound requests the handler can issue, with the query
parameters each URL carries.  The track request sets `kind` only when
`track.kind` is truthy (present and non-empty) and `name` only when
`track.name` is non-empty, mirroring the two `params.set` guards of
`fetchTrackTranscript`. -/
inductive Request where
  | direct (videoId : String)
  | listing (videoId : String)
  | trackReq (videoId : String) (lang : String) (kind : Option String) (name : Option String)
  deriving DecidableEq, Repr

/-- Outcome of one `fetch` (plus reading the body): `failure` models a
thrown transport/body error, `success ok status body` a received
response with its `res.ok` flag, status code and body text. -/
inductive FetchResult where
  | failure
  | success (ok : Bool) (status : Nat) (body : String)
  deriving DecidableEq, Repr

/-- The URL built by `fetchTrackTranscript` for a selected track. -/
def trackRequest (videoId : String) (track : CaptionTrack) : Request :=
  .trackReq videoId track.langCode
    (match track.kind with
     | some k => if k = "" then none else some k
     | none => none)
    (if track.name = "" then none else some track.name)

/-- `async function fetchTrackTranscript(videoId, track)`: one request;
a non-ok status yields the empty string, but a thrown transport error
is *not* caught here and propagates to the caller (`none`). -/
def fetchTrackTranscript (net : Request → FetchResult) (videoId : String)
    (track : CaptionTrack) : Option String :=
  match net (trackRequest videoId track) with
  | .failure => none
  | .success ok _ body => if ok then some body else some ""

/-- The inner `try { ... } catch { directTranscript = '' }` block of the
handler: the direct fetch's transport errors *are* caught locally, a
non-ok status leaves the initial `''`, and an ok body is trimmed. -/
def directAttempt (net : Request → FetchResult) (videoId : String) : String :=
  match net (.direct videoId) with
  | .failure => ""
  | .success ok _ body => if ok then jsTrim body else ""

/-- The JSON bodies the handler can produce, one constructor per
`JSON.stringify` site (the 500 body's `message` field is folded into
the constructor, its content being exception-dependent). -/
inductive RespBody where
  | missingParam (error : String)
  | directHit (transcript : String) (lang : String) (kind : String)
  | listFailed (transcript : String) (reason : String) (status : Nat)
  | noTracks (transcript : String) (reason : String)
  | emptyCaptions (transcript : String) (reason : String) (lang : String) (kind : Option String)
  | trackHit (transcript : String) (lang : String) (kind : Option String) (trackName : String)
  | internalError (error : String)
  deriving DecidableEq, Repr

/-- A handler response: status code, headers and structured body. -/
structure HttpResponse where
  statusCode : Nat
  headers : List (String × String)
  body : RespBody
  deriving DecidableEq, Repr

/-- The header object attached to every 200 response of the handler. -/
def corsHeaders : List (String × String) :=
  [("Content-Type", "application/json"), ("Access-Control-Allow-Origin", "*")]

/-- `export const handler: Handler`.  The input is the (optional)
`videoId` query parameter; the output also carries the ordered list of
outbound requests actually issued.  A `FetchResult.failure` of the
listing or the track fetch reaches the outer `catch` and produces the
500 response. -/
def handler (net : Request → FetchResult) (videoId? : Option String) :
    HttpResponse × List Request :=
  match videoId? with
  | none => (⟨400, [], .missingParam "Missing videoId query parameter"⟩, [])
  | some vid =>
    if vid = "" then (⟨400, [], .missingParam "Missing videoId query parameter"⟩, [])
    else
      if directAttempt net vid ≠ "" then
        (⟨200, corsHeaders, .directHit (directAttempt net vid) "en" "direct"⟩,
         [.direct vid])
      else
        match net (.listing vid) with
        | .failure =>
          (⟨500, [], .internalError "Failed to fetch YouTube transcript"⟩,
           [.direct vid, .listing vid])
        | .success ok status listXml =>
          if !ok then
            (⟨200, corsHeaders, .listFailed "" "list_request_failed" status⟩,
             [.direct vid, .listing vid])
          else
            match pickBestTrack (parseCaptionTracks listXml) with
            | none =>
              (⟨200, corsHeaders, .noTracks "" "no_captions_tracks"⟩,
               [.direct vid, .listing vid])
            | some best =>
              match fetchTrackTranscript net vid best with
              | none =>
                (⟨500, [], .internalError "Failed to fetch YouTube transcript"⟩,
                 [.direct vid, .listing vid, trackRequest vid best])
              | some raw =>
                if jsTrim raw = "" then
                  (⟨200, corsHeaders,
                    .emptyCaptions "" "empty_captions" best.langCode best.kind⟩,
                   [.direct vid, .listing vid, trackRequest vid best])
                else
                  (⟨200, corsHeaders,
                    .trackHit (jsTrim raw) best.langCode best.kind best.name⟩,
                   [.direct vid, .listing vid, trackRequest vid best])

/-- The `transcript` field of a body, when the body is one of the five
terminal `TranscriptResult` shapes (and `none` on the 400/500 fault
bodies, which carry no transcript at all). -/
def bodyTranscript : RespBody → Option String
  | .directHit t _ _ => some t
  | .listFailed t _ _ => some t
  | .noTracks t _ => some t
  | .emptyCaptions t _ _ _ => some t
  | .trackHit t _ _ _ => some t
  | _ => none

/-- Whether a body is one of the two hit outcomes. -/
def isHitBody : RespBody → Bool
  | .directHit _ _ _ => true
  | .trackHit _ _ _ _ => true
  | _ => false

/-- Whether a character list contains two adjacent whitespace
characters. -/
def hasRunAux : List Char → Bool
  | c1 :: c2 :: rest => (isJsWhitespace c1 && isJsWhitespace c2) || hasRunAux (c2 :: rest)
  | _ => false

/-- Whether the string contains two adjacent whitespace characters,
i.e. an uncollapsed whitespace run. -/
def hasWhitespaceRun (s : String) : Bool := hasRunAux s.data

/- Concrete fixtures used by the scenario theorems and witnesses. -/

/-- The French authored track of the scenario listing. -/
def frTrack : CaptionTrack :=
  { langCode := "fr", name := "", kind := none, vssId := none }

/-- The automatic (`asr`) en-US track of the scenario listing. -/
def enUsAsrTrack : CaptionTrack :=
  { langCode := "en-US", name := "", kind := some "asr", vssId := none }

/-- An exact-preferred-language track without a `kind` attribute. -/
def enTrack : CaptionTrack :=
  { langCode := "en", name := "", kind := none, vssId := none }

/-- A second exact-preferred-language, no-kind track (same score as
`enTrack`), used to exhibit a tie. -/
def enGbTrack : CaptionTrack :=
  { langCode := "en-GB", name := "", kind := none, vssId := none }

/-- The listing document of the specification's fallback scenario:
a French authored track followed by an automatic en-US track. -/
def scenarioListing : String :=
  "<track lang_code=\"fr\"/><track lang_code=\"en-US\" kind=\"asr\"/>"

/-- Network oracle for the fallback scenario: empty direct fetch,
successful listing, non-empty payload for the selected track. -/
def scenarioNet : Request → FetchResult
  | .direct _ => .success true 200 ""
  | .listing _ => .success true 200 scenarioListing
  | .trackReq _ _ _ _ => .success true 200 "Hello world"

/-- Network oracle whose listing request throws a transport error
(after an empty direct fetch). -/
def listFailNet : Request → FetchResult
  | .listing _ => .failure
  | _ => .success true 200 ""

/-- Network oracle whose listing request answers with a non-success
status (after an empty direct fetch). -/
def listNonOkNet : Request → FetchResult
  | .listing _ => .success false 404 ""
  | _ => .success true 200 ""

/-- Network oracle whose direct fetch succeeds with a body containing
an internal whitespace run. -/
def rawBodyNet : Request → FetchResult
  | .direct _ => .success true 200 "a  b"
  | _ => .success true 200 ""

/-- Attribute capture of the first (usable) track of `docWithBad`. -/
def goodAttrs : List Char := ("lang_code=\"en\" name=\"English\"").data

/-- Attribute capture of the middle track of `docWithBad`, which lacks
a `lang_code` attribute. -/
def badAttrs : List Char := ("name=\"NoLang\"").data

/-- Attribute capture of the last track of `docWithBad`. -/
def deAttrs : List Char := ("lang_code=\"de\"").data

/-- A listing document whose middle track has no language code. -/
def docWithBad : String :=
  "<track lang_code=\"en\" name=\"English\"/><track name=\"NoLang\"/><track lang_code=\"de\"/>"

/-! ## Lemmas: the fuel of the scanners is sufficient

Every recursion step of the two regex-loop models consumes at least one
character, so starting the fuel at the input length makes the fuel
never run out: the fuel-indexed functions agree for any sufficient
fuel. -/

theorem stripChars_length : ∀ (p s r : List Char), stripChars p s = some r →
    r.length + p.length = s.length := by
  intro p
  induction p with
  | nil =>
    intro s r h
    simp only [stripChars, Option.some.injEq] at h
    subst h
    simp
  | cons a as ih =>
    intro s r h
    cases s with
    | nil => simp [stripChars] at h
    | cons d ds =>
      simp only [stripChars] at h
      split at h
      · have := ih ds r h
        simp only [List.length_cons]
        omega
      · exact absurd h (by simp)

theorem findTerm_length_lt : ∀ (u acc g after : List Char),
    findTerm acc u = some (g, after) → after.length < u.length := by
  intro u
  induction u with
  | nil =>
    intro acc g after h
    simp [findTerm] at h
  | cons c rest ih =>
    intro acc g after h
    simp only [findTerm] at h
    by_cases hc : c = '>'
    · simp [hc] at h
    · rw [if_neg hc] at h
      by_cases hs : c = '/' ∧ rest.head? = some '>'
      · rw [if_pos hs] at h
        simp only [Option.some.injEq, Prod.mk.injEq] at h
        obtain ⟨-, h2⟩ := h
        subst h2
        have htl : rest.tail.length ≤ rest.length := by cases rest <;> simp
        simp only [List.length_cons]
        omega
      · rw [if_neg hs] at h
        have := ih (c :: acc) g after h
        simp only [List.length_cons]
        omega

theorem matchTrackAt_length_lt : ∀ (s g after : List Char),
    matchTrackAt s = some (g, after) → after.length < s.length := by
  intro s g after h
  unfold matchTrackAt at h
  split at h
  · exact absurd h (by simp)
  · rename_i afterTag hstrip
    have hlen : afterTag.length + 6 = s.length := stripChars_length _ _ _ hstrip
    split at h
    · exact absurd h (by simp)
    · split at h
      · exact absurd h (by simp)
      · rename_i c rest hdrop
        have hrest : rest.length + 1 ≤ afterTag.length := by
          have hle := (List.dropWhile_suffix (l := afterTag) isJsWhitespace).length_le
          rw [hdrop] at hle
          simpa using hle
        split at h
        · rename_i r hft
          obtain ⟨g', after'⟩ := r
          simp only [Option.some.injEq, Prod.mk.injEq] at h
          obtain ⟨-, h2⟩ := h
          subst h2
          have := findTerm_length_lt rest [c] g' after' hft
          omega
        · split at h
          · rename_i hw hcr
            simp only [Option.some.injEq, Prod.mk.injEq] at h
            obtain ⟨-, h2⟩ := h
            subst h2
            rename_i rest2
            simp only [List.length_cons] at hrest ⊢
            omega
          · exact absurd h (by simp)

theorem trackMatchesAux_congr : ∀ (f1 f2 : Nat) (s : List Char),
    s.length ≤ f1 → s.length ≤ f2 → trackMatchesAux f1 s = trackMatchesAux f2 s := by
  intro f1
  induction f1 with
  | zero =>
    intro f2 s h1 h2
    have hs : s = [] := List.eq_nil_of_length_eq_zero (Nat.le_zero.mp h1)
    subst hs
    cases f2 <;> rfl
  | succ k ih =>
    intro f2 s h1 h2
    cases s with
    | nil => cases f2 <;> rfl
    | cons c rest =>
      cases f2 with
      | zero => simp at h2
      | succ k2 =>
        simp only [trackMatchesAux]
        cases hm : matchTrackAt (c :: rest) with
        | none =>
          simp only [List.length_cons] at h1 h2
          exact ih k2 rest (by omega) (by omega)
        | some r =>
          obtain ⟨g, after⟩ := r
          have hlt := matchTrackAt_length_lt (c :: rest) g after hm
          simp only [List.length_cons] at h1 h2 hlt
          exact congrArg (g :: ·) (ih k2 after (by omega) (by omega))

theorem trackMatchesAux_eq_trackMatches (fuel : Nat) (s : List Char)
    (h : s.length ≤ fuel) : trackMatchesAux fuel s = trackMatches s :=
  trackMatchesAux_congr fuel s.length s h le_rfl

theorem parseAttrsAux_congr : ∀ (f1 f2 : Nat) (s : List Char),
    s.length ≤ f1 → s.length ≤ f2 → parseAttrsAux f1 s = parseAttrsAux f2 s := by
  intro f1
  induction f1 with
  | zero =>
    intro f2 s h1 h2
    have hs : s = [] := List.eq_nil_of_length_eq_zero (Nat.le_zero.mp h1)
    subst hs
    cases f2 <;> rfl
  | succ k ih =>
    intro f2 s h1 h2
    cases s with
    | nil => cases f2 <;> rfl
    | cons c rest =>
      cases f2 with
      | zero => simp at h2
      | succ k2 =>
        simp only [List.length_cons] at h1 h2
        simp only [parseAttrsAux]
        split
        · exact ih k2 rest (by omega) (by omega)
        · split
          · rename_i r2 hdrop
            have hr2 : r2.length + 2 ≤ rest.length + 1 := by
              have hle := (List.dropWhile_suffix (l := c :: rest) isNameChar).length_le
              rw [hdrop] at hle
              simpa using hle
            split
            · rename_i r4 hdrop2
              have hr4 : r4.length + 1 ≤ r2.length := by
                have hle := (List.dropWhile_suffix (l := r2)
                  (fun ch => ch ≠ '"')).length_le
                rw [hdrop2] at hle
                simpa using hle
              rw [ih k2 r4 (by omega) (by omega)]
            · exact ih k2 rest (by omega) (by omega)
          · exact ih k2 rest (by omega) (by omega)

/-! ## Lemmas: the catalog parser -/

theorem parseLoop_eq_filterMap : ∀ gs : List (List Char),
    parseLoop gs = gs.filterMap mkTrack := by
  intro gs
  induction gs with
  | nil => rfl
  | cons g gs ih =>
    simp only [parseLoop, List.filterMap_cons]
    cases mkTrack g <;> simp [ih]

theorem mkTrack_langCode_ne : ∀ (g : List Char) (t : CaptionTrack),
    mkTrack g = some t → t.langCode ≠ "" := by
  intro g t h
  simp only [mkTrack] at h
  split at h
  · exact absurd h (by simp)
  · rename_i lc hl
    split at h
    · exact absurd h (by simp)
    · rename_i hlc
      simp only [Option.some.injEq] at h
      subst h
      exact hlc

/-! ## Lemmas: the scorer -/

theorem scoreTrack_le_220 (t : CaptionTrack) : scoreTrack t ≤ 220 := by
  simp only [scoreTrack]
  repeat' split
  all_goals omega

theorem scoreTrack_eq_220_iff (t : CaptionTrack) :
    scoreTrack t = 220 ↔
      (preferredEnglishLangs.contains t.langCode = true ∧ t.kind.getD "" = "") := by
  simp only [scoreTrack]
  repeat' split
  all_goals simp_all

/-! ## Lemmas: the selector -/

theorem sortDesc_map_cons : ∀ (xs : List CaptionTrack) (x : CaptionTrack),
    ∃ t, sortDesc ((x :: xs).map mkScored) = mkScored (firstBest x xs) :: t := by
  intro xs
  induction xs with
  | nil =>
    intro x
    exact ⟨[], rfl⟩
  | cons y ys ih =>
    intro x
    obtain ⟨t', ht'⟩ := ih y
    simp only [List.map_cons] at ht' ⊢
    simp only [sortDesc] at ht' ⊢
    rw [ht']
    by_cases h : scoreTrack (firstBest y ys) ≤ scoreTrack x
    · refine ⟨mkScored (firstBest y ys) :: t', ?_⟩
      simp only [insertDesc, mkScored, firstBest]
      rw [if_pos h, if_pos h]
    · refine ⟨insertDesc (mkScored x) t', ?_⟩
      simp only [insertDesc, mkScored, firstBest]
      rw [if_neg h, if_neg h]

theorem pickBestTrack_cons (x : CaptionTrack) (xs : List CaptionTrack) :
    pickBestTrack (x :: xs) = some (firstBest x xs) := by
  obtain ⟨t, ht⟩ := sortDesc_map_cons xs x
  simp only [pickBestTrack, List.length_cons]
  rw [if_neg (by omega)]
  rw [ht]
  rfl

theorem firstBest_mem : ∀ (xs : List CaptionTrack) (x : CaptionTrack),
    firstBest x xs ∈ x :: xs := by
  intro xs
  induction xs with
  | nil =>
    intro x
    simp [firstBest]
  | cons y ys ih =>
    intro x
    simp only [firstBest]
    by_cases h : scoreTrack (firstBest y ys) ≤ scoreTrack x
    · rw [if_pos h]
      exact List.mem_cons_self x (y :: ys)
    · rw [if_neg h]
      exact List.mem_cons_of_mem x (ih y)

theorem firstBest_score_max : ∀ (xs : List CaptionTrack) (x z : CaptionTrack),
    z ∈ x :: xs → scoreTrack z ≤ scoreTrack (firstBest x xs) := by
  intro xs
  induction xs with
  | nil =>
    intro x z hz
    simp only [List.mem_singleton] at hz
    subst hz
    exact le_rfl
  | cons y ys ih =>
    intro x z hz
    simp only [firstBest]
    by_cases h : scoreTrack (firstBest y ys) ≤ scoreTrack x
    · rw [if_pos h]
      rcases List.mem_cons.mp hz with hzx | hzy
      · subst hzx
        exact le_rfl
      · exact le_trans (ih y z hzy) h
    · rw [if_neg h]
      rcases List.mem_cons.mp hz with hzx | hzy
      · subst hzx
        omega
      · exact ih y z hzy

theorem firstBest_first : ∀ (xs : List CaptionTrack) (x : CaptionTrack),
    ∃ A B, x :: xs = A ++ firstBest x xs :: B ∧
      ∀ a ∈ A, scoreTrack a < scoreTrack (firstBest x xs) := by
  intro xs
  induction xs with
  | nil =>
    intro x
    exact ⟨[], [], rfl, by simp⟩
  | cons y ys ih =>
    intro x
    simp only [firstBest]
    by_cases h : scoreTrack (firstBest y ys) ≤ scoreTrack x
    · rw [if_pos h]
      exact ⟨[], y :: ys, rfl, by simp⟩
    · rw [if_neg h]
      obtain ⟨A, B, hAB, hA⟩ := ih y
      refine ⟨x :: A, B, by rw [List.cons_append, ← hAB], ?_⟩
      intro a ha
      rcases List.mem_cons.mp ha with hax | haA
      · subst hax
        omega
      · exact hA a haA

/-! ## Lemmas: the handler -/

theorem directAttempt_spec (net : Request → FetchResult) (vid : String)
    (h : directAttempt net vid ≠ "") :
    ∃ st b, net (.direct vid) = .success true st b ∧
      directAttempt net vid = jsTrim b := by
  cases hd : net (.direct vid) with
  | failure => simp [directAttempt, hd] at h
  | success ok st b =>
    cases ok with
    | false => simp [directAttempt, hd] at h
    | true => exact ⟨st, b, rfl, by simp [directAttempt, hd]⟩

theorem fetchTrackTranscript_spec (net : Request → FetchResult) (vid : String)
    (track : CaptionTrack) (raw : String)
    (h : fetchTrackTranscript net vid track = some raw)
    (hne : ¬ jsTrim raw = "") :
    ∃ st b, net (trackRequest vid track) = .success true st b ∧ raw = b := by
  cases ht : net (trackRequest vid track) with
  | failure => simp [fetchTrackTranscript, ht] at h
  | success ok st b =>
    cases ok with
    | false =>
      simp [fetchTrackTranscript, ht] at h
      subst h
      exact absurd rfl hne
    | true =>
      simp [fetchTrackTranscript, ht] at h
      exact ⟨st, b, rfl, h.symm⟩

theorem handler_cases (net : Request → FetchResult) (v : Option String) :
    ((v = none ∨ v = some "") ∧
      handler net v = (⟨400, [], .missingParam "Missing videoId query parameter"⟩, []))
  ∨ (∃ vid, v = some vid ∧ vid ≠ "" ∧
      ((directAttempt net vid ≠ "" ∧
        handler net v =
          (⟨200, corsHeaders, .directHit (directAttempt net vid) "en" "direct"⟩,
           [.direct vid]))
      ∨ (directAttempt net vid = "" ∧
        ((net (.listing vid) = .failure ∧
          handler net v =
            (⟨500, [], .internalError "Failed to fetch YouTube transcript"⟩,
             [.direct vid, .listing vid]))
        ∨ (∃ st xml, net (.listing vid) = .success false st xml ∧
          handler net v =
            (⟨200, corsHeaders, .listFailed "" "list_request_failed" st⟩,
             [.direct vid, .listing vid]))
        ∨ (∃ st xml, net (.listing vid) = .success true st xml ∧
          ((pickBestTrack (parseCaptionTracks xml) = none ∧
            handler net v =
              (⟨200, corsHeaders, .noTracks "" "no_captions_tracks"⟩,
               [.direct vid, .listing vid]))
          ∨ (∃ best, pickBestTrack (parseCaptionTracks xml) = some best ∧
            ((fetchTrackTranscript net vid best = none ∧
              handler net v =
                (⟨500, [], .internalError "Failed to fetch YouTube transcript"⟩,
                 [.direct vid, .listing vid, trackRequest vid best]))
            ∨ (∃ raw, fetchTrackTranscript net vid best = some raw ∧ jsTrim raw = "" ∧
              handler net v =
                (⟨200, corsHeaders,
                  .emptyCaptions "" "empty_captions" best.langCode best.kind⟩,
                 [.direct vid, .listing vid, trackRequest vid best]))
            ∨ (∃ raw, fetchTrackTranscript net vid best = some raw ∧ jsTrim raw ≠ "" ∧
              handler net v =
                (⟨200, corsHeaders,
                  .trackHit (jsTrim raw) best.langCode best.kind best.name⟩,
                 [.direct vid, .listing vid, trackRequest vid best])))))))))) := by
  cases v with
  | none => exact Or.inl ⟨Or.inl rfl, rfl⟩
  | some vid =>
    by_cases hv : vid = ""
    · subst hv
      exact Or.inl ⟨Or.inr rfl, rfl⟩
    · right
      refine ⟨vid, rfl, hv, ?_⟩
      by_cases hd : directAttempt net vid = ""
      · right
        refine ⟨hd, ?_⟩
        cases hl : net (.listing vid) with
        | failure =>
          left
          exact ⟨rfl, by simp [handler, hv, hd, hl]⟩
        | success ok st xml =>
          cases ok with
          | false =>
            right; left
            exact ⟨st, xml, rfl, by simp [handler, hv, hd, hl]⟩
          | true =>
            right; right
            refine ⟨st, xml, rfl, ?_⟩
            cases hp : pickBestTrack (parseCaptionTracks xml) with
            | none =>
              left
              exact ⟨rfl, by simp [handler, hv, hd, hl, hp]⟩
            | some best =>
              right
              refine ⟨best, rfl, ?_⟩
              cases hf : fetchTrackTranscript net vid best with
              | none =>
                left
                exact ⟨rfl, by simp [handler, hv, hd, hl, hp, hf]⟩
              | some raw =>
                by_cases hr : jsTrim raw = ""
                · right; left
                  exact ⟨raw, rfl, hr, by simp [handler, hv, hd, hl, hp, hf, hr]⟩
                · right; right
                  exact ⟨raw, rfl, hr, by simp [handler, hv, hd, hl, hp, hf, hr]⟩
      · left
        exact ⟨hd, by simp [handler, hv, hd]⟩

/-! ## Lemmas: trimming -/

theorem jsTrimList_eq_rdrop (s : List Char) :
    jsTrimList s = (s.dropWhile isJsWhitespace).rdropWhile isJsWhitespace := rfl

theorem dropWhile_head_not (p : Char → Bool) : ∀ (l : List Char) (c : Char)
    (cs : List Char), l.dropWhile p = c :: cs → p c = false := by
  intro l
  induction l with
  | nil =>
    intro c cs h
    simp [List.dropWhile] at h
  | cons a as ih =>
    intro c cs h
    rw [List.dropWhile_cons] at h
    split at h
    · exact ih c cs h
    · rename_i hpa
      injection h with h1 h2
      subst h1
      simpa using hpa

theorem jsTrimList_idem (s : List Char) :
    jsTrimList (jsTrimList s) = jsTrimList s := by
  rw [jsTrimList_eq_rdrop, jsTrimList_eq_rdrop]
  have h1 : ((s.dropWhile isJsWhitespace).rdropWhile isJsWhitespace).dropWhile
        isJsWhitespace
      = (s.dropWhile isJsWhitespace).rdropWhile isJsWhitespace := by
    cases hR : (s.dropWhile isJsWhitespace).rdropWhile isJsWhitespace with
    | nil => rfl
    | cons c cs =>
      obtain ⟨t, ht⟩ :=
        List.rdropWhile_prefix (l := s.dropWhile isJsWhitespace) isJsWhitespace
      rw [hR] at ht
      have hc : isJsWhitespace c = false := by
        apply dropWhile_head_not isJsWhitespace s c (cs ++ t)
        rw [← ht]
        simp
      simp [List.dropWhile_cons, hc]
  rw [h1, List.rdropWhile_idempotent]

theorem jsTrim_idem (s : String) : jsTrim (jsTrim s) = jsTrim s :=
  congrArg String.mk (jsTrimList_idem s.data)

/-! ## Claims -/

/-- Claim C10: `pickBestTrack` returns no selection exactly when its
input list is empty, and for every non-empty input it returns an
element of the input, so the `?? null` fallback is unreachable under
the non-empty precondition. -/
theorem claim_C10_pick_none_iff_nil (tracks : List CaptionTrack) :
    (pickBestTrack tracks = none ↔ tracks = []) ∧
      ∀ t, pickBestTrack tracks = some t → t ∈ tracks := by
  cases tracks with
  | nil =>
    constructor
    · simp [pickBestTrack]
    · intro t h
      simp [pickBestTrack] at h
  | cons x xs =>
    rw [pickBestTrack_cons]
    constructor
    · simp
    · intro t ht
      simp only [Option.some.injEq] at ht
      subst ht
      exact firstBest_mem xs x

theorem claim_C10_witness : frTrack ∈ [frTrack] :=
  (claim_C10_pick_none_iff_nil [frTrack]).2 frTrack (by rfl)

/-- Claim C6: selection among maximal-score descriptors is decided by
original listing order.  On any non-empty input the selected descriptor
`p` splits the list as `A ++ p :: B` where everything in `A` (listed
before `p`) scores strictly below `p` and everything in `B` scores at
most `p`: of two descriptors with identical (maximal) score the earlier
one is selected. -/
theorem claim_C6_tie_break (tracks : List CaptionTrack) (x : CaptionTrack)
    (xs : List CaptionTrack) (h : tracks = x :: xs) :
    ∃ p A B, pickBestTrack tracks = some p ∧ tracks = A ++ p :: B ∧
      (∀ a ∈ A, scoreTrack a < scoreTrack p) ∧
      ∀ b ∈ B, scoreTrack b ≤ scoreTrack p := by
  subst h
  obtain ⟨A, B, hAB, hA⟩ := firstBest_first xs x
  refine ⟨firstBest x xs, A, B, pickBestTrack_cons x xs, hAB, hA, ?_⟩
  intro b hb
  apply firstBest_score_max xs x b
  rw [hAB]
  exact List.mem_append_right A (List.mem_cons_of_mem _ hb)

theorem claim_C6_witness :
    ∃ p A B, pickBestTrack [enTrack, enGbTrack] = some p ∧
      [enTrack, enGbTrack] = A ++ p :: B ∧
      (∀ a ∈ A, scoreTrack a < scoreTrack p) ∧
      ∀ b ∈ B, scoreTrack b ≤ scoreTrack p :=
  claim_C6_tie_break [enTrack, enGbTrack] enTrack [enGbTrack] rfl

/-- Claim C5: whenever the input contains a descriptor whose language
code is an exact member of the preferred set and whose `kind` is
absent, the selected descriptor is such a descriptor (score 220, the
unique maximum): in particular it is never an `asr` (automatic) track
and never a non-preferred-language track. -/
theorem claim_C5_prefers_exact_nokind (tracks : List CaptionTrack)
    (d : CaptionTrack) (hd : d ∈ tracks)
    (hlang : preferredEnglishLangs.contains d.langCode = true)
    (hkind : d.kind = none) :
    ∃ p, pickBestTrack tracks = some p ∧ scoreTrack p = 220 ∧
      preferredEnglishLangs.contains p.langCode = true ∧
      p.kind.getD "" = "" ∧ p.kind ≠ some "asr" := by
  cases tracks with
  | nil => simp at hd
  | cons x xs =>
    have h220 : scoreTrack d = 220 :=
      (scoreTrack_eq_220_iff d).mpr ⟨hlang, by rw [hkind]; rfl⟩
    have hmax : scoreTrack d ≤ scoreTrack (firstBest x xs) :=
      firstBest_score_max xs x d hd
    have hp220 : scoreTrack (firstBest x xs) = 220 :=
      le_antisymm (scoreTrack_le_220 _) (h220 ▸ hmax)
    obtain ⟨h1, h2⟩ := (scoreTrack_eq_220_iff _).mp hp220
    refine ⟨firstBest x xs, pickBestTrack_cons x xs, hp220, h1, h2, ?_⟩
    intro hc
    rw [hc] at h2
    simp at h2

theorem claim_C5_witness :
    ∃ p, pickBestTrack [frTrack, enTrack, enUsAsrTrack] = some p ∧
      scoreTrack p = 220 ∧
      preferredEnglishLangs.contains p.langCode = true ∧
      p.kind.getD "" = "" ∧ p.kind ≠ some "asr" :=
  claim_C5_prefers_exact_nokind [frTrack, enTrack, enUsAsrTrack] enTrack
    (by decide) (by rfl) rfl

/-- Claim C4 (counterexample): the claim assigns the automatic en-US
track score `150+10=160`, but `en-US` is an exact member of
`preferredEnglishLangs`, so the code assigns `200+10=210` (the French
no-kind track does score `50+20=70` as claimed). -/
theorem claim_C4_counterexample :
    scoreTrack enUsAsrTrack = 210 ∧ ¬ scoreTrack enUsAsrTrack = 160 ∧
      scoreTrack frTrack = 70 :=
  ⟨rfl, by decide, rfl⟩

/-- Claim C4 (amended): on the scenario listing `[fr (no kind),
en-US (asr)]` the scorer assigns en-US/asr `200+10=210` and French
`50+20=70` and selects the en-US automatic track; after an empty direct
fetch and a non-empty payload for the selected track the result is a
track hit carrying language `en-US` and kind `asr` (the service's name
for automatic captions). -/
theorem claim_C4_amended :
    scoreTrack enUsAsrTrack = 210 ∧ scoreTrack frTrack = 70 ∧
      parseCaptionTracks scenarioListing = [frTrack, enUsAsrTrack] ∧
      pickBestTrack (parseCaptionTracks scenarioListing) = some enUsAsrTrack ∧
      (handler scenarioNet (some "abc123")).1 =
        ⟨200, corsHeaders, .trackHit "Hello world" "en-US" (some "asr") ""⟩ :=
  ⟨rfl, rfl, rfl, rfl, rfl⟩

/-- Claim C7: every descriptor produced by the catalog parser has a
non-empty language code; the parse is exactly the in-source-order
filter-map of the per-element parse over the matched track elements
(so source order is preserved); an element whose `lang_code` attribute
is missing or empty is dropped, i.e. the parse equals the parse with
that element absent; and a document with no usable tracks parses to the
empty list rather than an error. -/
theorem claim_C7_parser_invariants (xml : String) :
    (∀ t ∈ parseCaptionTracks xml, t.langCode ≠ "") ∧
      parseCaptionTracks xml = (trackMatches xml.data).filterMap mkTrack ∧
      (∀ A bad B, trackMatches xml.data = A ++ bad :: B → mkTrack bad = none →
        parseCaptionTracks xml = parseLoop (A ++ B)) ∧
      ((∀ g ∈ trackMatches xml.data, mkTrack g = none) →
        parseCaptionTracks xml = []) := by
  refine ⟨?_, parseLoop_eq_filterMap _, ?_, ?_⟩
  · intro t ht
    rw [parseCaptionTracks, parseLoop_eq_filterMap] at ht
    obtain ⟨g, -, hg⟩ := List.mem_filterMap.mp ht
    exact mkTrack_langCode_ne g t hg
  · intro A bad B hsplit hbad
    rw [parseCaptionTracks, hsplit, parseLoop_eq_filterMap, parseLoop_eq_filterMap,
      List.filterMap_append, List.filterMap_append, List.filterMap_cons, hbad]
  · intro hall
    rw [parseCaptionTracks, parseLoop_eq_filterMap]
    exact List.filterMap_eq_nil_iff.mpr hall

theorem claim_C7_witness :
    parseCaptionTracks docWithBad = parseLoop ([goodAttrs] ++ [deAttrs]) :=
  (claim_C7_parser_invariants docWithBad).2.2.1 [goodAttrs] badAttrs [deAttrs]
    (by rfl) (by rfl)

/-- Claim C8: an absent or empty `videoId` query parameter yields the
400 `missingParam` response — a body shape distinct from every
`TranscriptResult` (it carries no transcript field) — and the request
log is empty: no outbound request is issued. -/
theorem claim_C8_missing_videoId (net : Request → FetchResult)
    (v : Option String) (h : v = none ∨ v = some "") :
    (handler net v).1.statusCode = 400 ∧
      bodyTranscript (handler net v).1.body = none ∧
      (handler net v).2 = [] := by
  rcases h with rfl | rfl
  · exact ⟨rfl, rfl, rfl⟩
  · exact ⟨rfl, rfl, rfl⟩

theorem claim_C8_witness :
    (handler scenarioNet none).1.statusCode = 400 ∧
      bodyTranscript (handler scenarioNet none).1.body = none ∧
      (handler scenarioNet none).2 = [] :=
  claim_C8_missing_videoId scenarioNet none (Or.inl rfl)

/-- Claim C9: every response whose body is one of the five terminal
`TranscriptResult` shapes (it carries a transcript field) has HTTP
status 200 and the header `Access-Control-Allow-Origin: *`: soft misses
are distinguishable only by the body, never by status code. -/
theorem claim_C9_terminal_is_200 (net : Request → FetchResult)
    (v : Option String) (t : String)
    (h : bodyTranscript (handler net v).1.body = some t) :
    (handler net v).1.statusCode = 200 ∧
      ("Access-Control-Allow-Origin", "*") ∈ (handler net v).1.headers := by
  rcases handler_cases net v with ⟨-, heq⟩ | ⟨vid, -, -, hcase⟩
  · rw [heq] at h
    simp [bodyTranscript] at h
  · rcases hcase with ⟨-, heq⟩ | ⟨-, hcase⟩
    · rw [heq]
      exact ⟨rfl, by simp [corsHeaders]⟩
    · rcases hcase with ⟨-, heq⟩ | ⟨st, xml, -, heq⟩ | ⟨st, xml, -, hcase⟩
      · rw [heq] at h
        simp [bodyTranscript] at h
      · rw [heq]
        exact ⟨rfl, by simp [corsHeaders]⟩
      · rcases hcase with ⟨-, heq⟩ | ⟨best, -, hcase⟩
        · rw [heq]
          exact ⟨rfl, by simp [corsHeaders]⟩
        · rcases hcase with ⟨-, heq⟩ | ⟨raw, -, -, heq⟩ | ⟨raw, -, -, heq⟩
          · rw [heq] at h
            simp [bodyTranscript] at h
          · rw [heq]
            exact ⟨rfl, by simp [corsHeaders]⟩
          · rw [heq]
            exact ⟨rfl, by simp [corsHeaders]⟩

theorem claim_C9_witness :
    (handler scenarioNet (some "abc123")).1.statusCode = 200 ∧
      ("Access-Control-Allow-Origin", "*") ∈
        (handler scenarioNet (some "abc123")).1.headers :=
  claim_C9_terminal_is_200 scenarioNet (some "abc123") "Hello world" (by rfl)

/-- Claim C1: for every acquisition call whose response body is a
terminal `TranscriptResult`, the transcript text is non-empty if and
only if the body is one of the two hit shapes (`directHit`/`trackHit`);
every other outcome carries the empty transcript. -/
theorem claim_C1_text_iff_hit (net : Request → FetchResult)
    (v : Option String) (t : String)
    (h : bodyTranscript (handler net v).1.body = some t) :
    t ≠ "" ↔ isHitBody (handler net v).1.body = true := by
  rcases handler_cases net v with ⟨-, heq⟩ | ⟨vid, -, -, hcase⟩
  · rw [heq] at h
    simp [bodyTranscript] at h
  · rcases hcase with ⟨hne, heq⟩ | ⟨-, hcase⟩
    · rw [heq] at h ⊢
      simp only [bodyTranscript, Option.some.injEq] at h
      subst h
      simpa [isHitBody] using hne
    · rcases hcase with ⟨-, heq⟩ | ⟨st, xml, -, heq⟩ | ⟨st, xml, -, hcase⟩
      · rw [heq] at h
        simp [bodyTranscript] at h
      · rw [heq] at h ⊢
        simp only [bodyTranscript, Option.some.injEq] at h
        subst h
        simp [isHitBody]
      · rcases hcase with ⟨-, heq⟩ | ⟨best, -, hcase⟩
        · rw [heq] at h ⊢
          simp only [bodyTranscript, Option.some.injEq] at h
          subst h
          simp [isHitBody]
        · rcases hcase with ⟨-, heq⟩ | ⟨raw, -, hr, heq⟩ | ⟨raw, -, hr, heq⟩
          · rw [heq] at h
            simp [bodyTranscript] at h
          · rw [heq] at h ⊢
            simp only [bodyTranscript, Option.some.injEq] at h
            subst h
            simp [isHitBody]
          · rw [heq] at h ⊢
            simp only [bodyTranscript, Option.some.injEq] at h
            subst h
            simpa [isHitBody] using hr

theorem claim_C1_witness :
    ("Hello world" ≠ "") ↔
      isHitBody (handler scenarioNet (some "abc123")).1.body = true :=
  claim_C1_text_iff_hit scenarioNet (some "abc123") "Hello world" (by rfl)

/-- Claim C2 (counterexample): a transport error (thrown `fetch`) of
the listing request is not recovered as `ListUnavailable`; it reaches
the outer catch and surfaces as the 500 hard-fault response, which is
not a `TranscriptResult` at all. -/
theorem claim_C2_counterexample :
    (handler listFailNet (some "abc123")).1 =
      ⟨500, [], .internalError "Failed to fetch YouTube transcript"⟩ ∧
      ¬ (handler listFailNet (some "abc123")).1.statusCode = 200 ∧
      bodyTranscript (handler listFailNet (some "abc123")).1.body = none :=
  ⟨rfl, by decide, rfl⟩

/-- Claim C2 (amended): non-success statuses and empty bodies are
recovered locally — a non-ok listing response yields the
`list_request_failed` (ListUnavailable) result, a non-ok track response
yields the empty string from `fetchTrackTranscript`, and an ok track
response whose trimmed body is empty yields the `empty_captions`
result — but transport errors of the listing request or of the selected
track's fetch are not recovered locally: they propagate to the outer
catch and produce the 500 hard-fault response.  (Only the direct
fetch's transport errors are swallowed, by its inner try/catch.) -/
theorem claim_C2_amended (net : Request → FetchResult) (vid : String)
    (hvid : ¬ vid = "") (hdir : directAttempt net vid = "") :
    (∀ st xml, net (.listing vid) = .success false st xml →
      (handler net (some vid)).1 =
        ⟨200, corsHeaders, .listFailed "" "list_request_failed" st⟩) ∧
    (net (.listing vid) = .failure →
      (handler net (some vid)).1 =
        ⟨500, [], .internalError "Failed to fetch YouTube transcript"⟩) ∧
    (∀ st xml best raw, net (.listing vid) = .success true st xml →
      pickBestTrack (parseCaptionTracks xml) = some best →
      fetchTrackTranscript net vid best = some raw → jsTrim raw = "" →
      (handler net (some vid)).1 =
        ⟨200, corsHeaders,
          .emptyCaptions "" "empty_captions" best.langCode best.kind⟩) ∧
    (∀ st xml best, net (.listing vid) = .success true st xml →
      pickBestTrack (parseCaptionTracks xml) = some best →
      net (trackRequest vid best) = .failure →
      (handler net (some vid)).1 =
        ⟨500, [], .internalError "Failed to fetch YouTube transcript"⟩) ∧
    (∀ best stt bdy, net (trackRequest vid best) = .success false stt bdy →
      fetchTrackTranscript net vid best = some "") := by
  refine ⟨?_, ?_, ?_, ?_, ?_⟩
  · intro st xml hl
    simp [handler, hvid, hdir, hl]
  · intro hl
    simp [handler, hvid, hdir, hl]
  · intro st xml best raw hl hp hf hr
    simp [handler, hvid, hdir, hl, hp, hf, hr]
  · intro st xml best hl hp htr
    simp [handler, hvid, hdir, hl, hp, fetchTrackTranscript, htr]
  · intro best stt bdy htr
    simp [fetchTrackTranscript, htr]

theorem claim_C2_witness :
    (handler listNonOkNet (some "abc123")).1 =
      ⟨200, corsHeaders, .listFailed "" "list_request_failed" 404⟩ :=
  (claim_C2_amended listNonOkNet "abc123" (by decide) (by rfl)).1 404 "" (by rfl)

/-- Claim C3 (counterexample): payloads are not normalized by
collapsing internal whitespace runs: a direct-fetch body `"a  b"` is
surfaced verbatim, internal double space included. -/
theorem claim_C3_counterexample :
    (handler rawBodyNet (some "abc123")).1.body =
      .directHit "a  b" "en" "direct" ∧
      bodyTranscript (handler rawBodyNet (some "abc123")).1.body =
        some "a  b" ∧
      hasWhitespaceRun "a  b" = true :=
  ⟨rfl, rfl, rfl⟩

/-- Claim C3 (amended): every surfaced transcript is edge-trimmed —
`jsTrim t = t`, i.e. no leading or trailing whitespace — and the hit
transcripts are exactly the trim of the corresponding response body;
internal whitespace runs are preserved, not collapsed. -/
theorem claim_C3_trim_only :
    (∀ net v t, bodyTranscript (handler net v).1.body = some t →
      jsTrim t = t) ∧
    (∀ net vid t l k, (handler net (some vid)).1.body = .directHit t l k →
      ∃ st b, net (.direct vid) = .success true st b ∧ t = jsTrim b) ∧
    (∀ net vid t l k nm,
      (handler net (some vid)).1.body = .trackHit t l k nm →
      ∃ best st b, net (trackRequest vid best) = .success true st b ∧
        t = jsTrim b ∧ l = best.langCode ∧ k = best.kind ∧ nm = best.name) := by
  refine ⟨?_, ?_, ?_⟩
  · intro net v t h
    rcases handler_cases net v with ⟨-, heq⟩ | ⟨vid, -, -, hcase⟩
    · rw [heq] at h
      simp [bodyTranscript] at h
    · rcases hcase with ⟨hne, heq⟩ | ⟨-, hcase⟩
      · rw [heq] at h
        simp only [bodyTranscript, Option.some.injEq] at h
        subst h
        obtain ⟨st, b, -, hda⟩ := directAttempt_spec net vid hne
        rw [hda]
        exact jsTrim_idem b
      · rcases hcase with ⟨-, heq⟩ | ⟨st, xml, -, heq⟩ | ⟨st, xml, -, hcase⟩
        · rw [heq] at h
          simp [bodyTranscript] at h
        · rw [heq] at h
          simp only [bodyTranscript, Option.some.injEq] at h
          subst h
          rfl
        · rcases hcase with ⟨-, heq⟩ | ⟨best, -, hcase⟩
          · rw [heq] at h
            simp only [bodyTranscript, Option.some.injEq] at h
            subst h
            rfl
          · rcases hcase with ⟨-, heq⟩ | ⟨raw, -, -, heq⟩ | ⟨raw, -, -, heq⟩
            · rw [heq] at h
              simp [bodyTranscript] at h
            · rw [heq] at h
              simp only [bodyTranscript, Option.some.injEq] at h
              subst h
              rfl
            · rw [heq] at h
              simp only [bodyTranscript, Option.some.injEq] at h
              subst h
              exact jsTrim_idem raw
  · intro net vid t l k hbody
    rcases handler_cases net (some vid) with ⟨-, heq⟩ | ⟨vid', hv, -, hcase⟩
    · rw [heq] at hbody
      simp at hbody
    · injection hv with hv'
      subst hv'
      rcases hcase with ⟨hne, heq⟩ | ⟨-, hcase⟩
      · rw [heq] at hbody
        simp only [RespBody.directHit.injEq] at hbody
        obtain ⟨h1, -, -⟩ := hbody
        obtain ⟨st, b, hnb, hda⟩ := directAttempt_spec net vid hne
        exact ⟨st, b, hnb, by rw [← h1, hda]⟩
      · rcases hcase with ⟨-, heq⟩ | ⟨st, xml, -, heq⟩ | ⟨st, xml, -, hcase⟩
        · rw [heq] at hbody
          simp at hbody
        · rw [heq] at hbody
          simp at hbody
        · rcases hcase with ⟨-, heq⟩ | ⟨best, -, hcase⟩
          · rw [heq] at hbody
            simp at hbody
          · rcases hcase with ⟨-, heq⟩ | ⟨raw, -, -, heq⟩ | ⟨raw, -, -, heq⟩
            · rw [heq] at hbody
              simp at hbody
            · rw [heq] at hbody
              simp at hbody
            · rw [heq] at hbody
              simp at hbody
  · intro net vid t l k nm hbody
    rcases handler_cases net (some vid) with ⟨-, heq⟩ | ⟨vid', hv, -, hcase⟩
    · rw [heq] at hbody
      simp at hbody
    · injection hv with hv'
      subst hv'
      rcases hcase with ⟨-, heq⟩ | ⟨-, hcase⟩
      · rw [heq] at hbody
        simp at hbody
      · rcases hcase with ⟨-, heq⟩ | ⟨st, xml, -, heq⟩ | ⟨st, xml, -, hcase⟩
        · rw [heq] at hbody
          simp at hbody
        · rw [heq] at hbody
          simp at hbody
        · rcases hcase with ⟨-, heq⟩ | ⟨best, -, hcase⟩
          · rw [heq] at hbody
            simp at hbody
          · rcases hcase with ⟨-, heq⟩ | ⟨raw, -, -, heq⟩ | ⟨raw, hf, hr, heq⟩
            · rw [heq] at hbody
              simp at hbody
            · rw [heq] at hbody
              simp at hbody
            · rw [heq] at hbody
              simp only [RespBody.trackHit.injEq] at hbody
              obtain ⟨h1, h2, h3, h4⟩ := hbody
              obtain ⟨st2, b, hnb, hrb⟩ :=
                fetchTrackTranscript_spec net vid best raw hf hr
              subst hrb
              exact ⟨best, st2, raw, hnb, h1.symm, h2.symm, h3.symm, h4.symm⟩

theorem claim_C3_witness : jsTrim "Hello world" = "Hello world" :=
  claim_C3_trim_only.1 scenarioNet (some "abc123") "Hello world" (by rfl)
